import Mathlib

/-!
Verification of the brainfuck interpreter `src/python/bf3.py`.

The embedding below translates the two-stage pipeline of the source:
`Interpreter.parse` (run-length folding compiler with a loop stack) and
`Interpreter.execute` (recursive tree walk over the compiled nodes against
a growable tape).  Python machine state (the `Interpreter` object's mutable
fields together with `sys.stdin` / `sys.stdout`) is threaded explicitly;
Python exceptions (`IndexError`, `TypeError`, bracket errors) are modelled
with `Option` / explicit error constructors; Python integers are `Int` /
`Nat` with explicit `%`.
-/

/-- The six semantic token kinds of `class Token(MultiValueEnum)`
(bf3.py lines 9-15): `>` and `<` both map to `IncrPtr`, `+` and `-`
both map to `Incr`. -/
inductive Token where
  | IncrPtr
  | Incr
  | StdOut
  | StdIn
  | LoopStart
  | LoopEnd
  deriving DecidableEq

/-- `Token(ch)`: the MultiValueEnum lookup.  `none` models Python's
`ValueError` for a character outside the eight instruction symbols
(the caller guarantees it never happens, bf3.py line 134). -/
def tokenOf : Char → Option Token
  | '>' => some Token.IncrPtr
  | '<' => some Token.IncrPtr
  | '+' => some Token.Incr
  | '-' => some Token.Incr
  | '.' => some Token.StdOut
  | ',' => some Token.StdIn
  | '[' => some Token.LoopStart
  | ']' => some Token.LoopEnd
  | _ => none

/-- Per-character increment (bf3.py lines 55 and 72):
`-1 if ch in "<-" else 1`. -/
def incOf (c : Char) : Int := if c = '<' ∨ c = '-' then -1 else 1

/-- `class CountedToken(NamedTuple)` (bf3.py lines 18-20). -/
structure CountedToken where
  token : Token
  count : Int
  deriving DecidableEq

/-- A compiled node: the Python `c_tokens` list holds either `CountedToken`
values or plain lists (loop bodies) — see bf3.py lines 57-78 (construction)
and 86-89 (the `isinstance(c_token, list)` dispatch). -/
inductive CNode where
  | op : CountedToken → CNode
  | loop : List CNode → CNode

/-- The mutable interpreter state from `Interpreter.__init__`
(bf3.py lines 24-33) that execution uses: `data_ptr`, `memory`,
`cell_size`, plus explicit models of `sys.stdin` (characters not yet read)
and `sys.stdout` (character codes written so far).  The parse-phase fields
(`stack`, `c_tokens`, `instr_ptr`) are threaded as arguments of
`parseLoop` below. -/
structure Interpreter where
  data_ptr : Int
  memory : List Int
  cell_size : Nat
  input : List Char
  output : List Int
  deriving DecidableEq

/-- A freshly constructed interpreter: `data_ptr = 0`,
`memory = [0] * m_size` (bf3.py lines 27 and 31). -/
def initInterp (c_size m_size : Nat) (input : List Char) : Interpreter :=
  { data_ptr := 0
    memory := List.replicate m_size 0
    cell_size := c_size
    input := input
    output := [] }

/-- `2 << (c_size - 1)` (bf3.py lines 32 and 42); equals `2 ^ c_size`
whenever `c_size ≥ 1`. -/
def max_int (c_size : Nat) : Nat := 2 <<< (c_size - 1)

/-- Python list-index normalisation: a negative index addresses the list
from its end. -/
def pyIdx (len : Nat) (i : Int) : Nat :=
  if i < 0 then ((len : Int) + i).toNat else i.toNat

/-- `mem[i]` on a Python list: a negative index wraps from the end, an
out-of-range index raises `IndexError` (modelled as `none`). -/
def pyGet (mem : List Int) (i : Int) : Option Int :=
  if i < 0 ∧ (mem.length : Int) + i < 0 then none
  else mem.get? (pyIdx mem.length i)

/-- `mem[i] = v` on a Python list: same index rules as `pyGet`. -/
def pySet (mem : List Int) (i : Int) (v : Int) : Option (List Int) :=
  if i < 0 ∧ (mem.length : Int) + i < 0 then none
  else
    match mem.get? (pyIdx mem.length i) with
    | some _ => some (mem.set (pyIdx mem.length i) v)
    | none => none

/-- `Interpreter.incr_ptr` (bf3.py lines 35-38): move the pointer by
`count`; exactly when the new pointer equals `len(self.memory)` the tape
grows by `len(self.memory) // 2` zero cells.  Never fails. -/
def incr_ptr (count : Int) (s : Interpreter) : Interpreter :=
  let p := s.data_ptr + count
  if p = (s.memory.length : Int) then
    { s with
      data_ptr := p
      memory := s.memory ++ List.replicate (s.memory.length / 2) 0 }
  else { s with data_ptr := p }

/-- `Interpreter.incr` (bf3.py lines 40-42):
`memory[data_ptr] += count` followed by
`memory[data_ptr] %= 2 << (cell_size - 1)`; the two sequential statements
on the same index are combined into one read-modify-write.  Python `%`
with a positive modulus is the non-negative (floor) remainder, which `Int`'s
`%` (`Int.emod`) agrees with on a positive modulus. -/
def incr (count : Int) (s : Interpreter) : Option Interpreter :=
  match pyGet s.memory s.data_ptr with
  | none => none
  | some v =>
    match pySet s.memory s.data_ptr ((v + count) % (max_int s.cell_size : Int)) with
    | none => none
    | some m => some { s with memory := m }

/-- `Interpreter.stdout` (bf3.py lines 44-47): write
`chr(memory[data_ptr])` to stdout `count` times.  `chr` raises outside
`[0, 0x110000)`.  Every compiled StdOut node has `count ≥ 1`, so the
corner where Python's `range(count)` is empty and the cell is never read
is unreachable from compiled programs. -/
def stdout (count : Int) (s : Interpreter) : Option Interpreter :=
  match pyGet s.memory s.data_ptr with
  | none => none
  | some v =>
    if 1 ≤ count ∧ (v < 0 ∨ 1114112 ≤ v) then none
    else some { s with output := s.output ++ List.replicate count.toNat v }

/-- `Interpreter.stdin` (bf3.py lines 49-50):
`memory[data_ptr] = ord(sys.stdin.read(count))`.  `read(count)` returns up
to `count` characters; `ord` succeeds only on a 1-character string and
raises `TypeError` otherwise (modelled as `none`). -/
def stdin (count : Int) (s : Interpreter) : Option Interpreter :=
  match s.input.take count.toNat with
  | [c] =>
    match pySet s.memory s.data_ptr (c.toNat : Int) with
    | some m => some { s with memory := m, input := s.input.drop count.toNat }
    | none => none
  | _ => none

/-- The `elif` dispatch of `Interpreter.execute` on a counted token
(bf3.py lines 90-97).  A bracket kind (never present in compiled output)
falls through the chain doing nothing. -/
def execOp (ct : CountedToken) (s : Interpreter) : Option Interpreter :=
  match ct.token with
  | Token.IncrPtr => some (incr_ptr ct.count s)
  | Token.Incr => incr ct.count s
  | Token.StdOut => stdout ct.count s
  | Token.StdIn => stdin ct.count s
  | Token.LoopStart => some s
  | Token.LoopEnd => some s

/-- `Interpreter.execute` (bf3.py lines 85-97), with explicit fuel bounding
the recursion; `none` is fuel exhaustion or a propagated Python runtime
error.  A loop node (`isinstance(c_token, list)`) re-reads
`memory[data_ptr]` before every iteration, including the first. -/
def execute : Nat → List CNode → Interpreter → Option Interpreter
  | _, [], s => some s
  | 0, _ :: _, _ => none
  | fuel + 1, CNode.loop body :: rest, s =>
    match pyGet s.memory s.data_ptr with
    | none => none
    | some v =>
      if v = 0 then execute fuel rest s
      else
        match execute fuel body s with
        | none => none
        | some s2 => execute fuel (CNode.loop body :: rest) s2
  | fuel + 1, CNode.op ct :: rest, s =>
    match execOp ct s with
    | none => none
    | some s2 => execute fuel rest s2

/-- The exceptions `Interpreter.parse` can raise (bf3.py lines 66-68 and
82-83), plus the `ValueError` of `Token()` on a foreign character. -/
inductive ParseErr where
  | unmatchedClose (pos : Nat)
  | unmatchedOpen
  | invalidChar (pos : Nat)
  deriving DecidableEq

/-- Outcome of `Interpreter.parse`: `ok` carries the final `c_tokens`;
`err` carries the exception together with the `stack` and `c_tokens`
fields that the interpreter object retains at the moment the exception is
raised. -/
inductive ParseResult where
  | ok : List CNode → ParseResult
  | err : ParseErr → List (List CNode) → List CNode → ParseResult

/-- The inner fold loop of `Interpreter.parse` (bf3.py lines 70-72):
starting from token kind `t` and a running count, consume the following
characters as long as they have the same kind, adding `-1` for a character
in `"<-"` and `+1` otherwise.  `pos` is the index of the character just
consumed; returns the final count, the index of the last consumed
character, and the unconsumed suffix.  The lookahead `Token(program[i+1])`
is evaluated before the kind comparison, so a foreign character raises
even when the run would have stopped. -/
def foldRun (t : Token) : Int → Nat → List Char → Except ParseErr (Int × Nat × List Char)
  | count, pos, [] => .ok (count, pos, [])
  | count, pos, c :: rest =>
    match tokenOf c with
    | none => .error (.invalidChar (pos + 1))
    | some u =>
      if u = t then foldRun t (count + incOf c) (pos + 1) rest
      else .ok (count, pos, c :: rest)

/-- The outer scan of `Interpreter.parse` (bf3.py lines 52-83).  `pos`
models `instr_ptr`, `stack` the loop stack (list head = Python
`stack[-1]`), `ctokens` the growing `c_tokens` list, and the final
argument the unscanned suffix of `program`.  The fuel bounds outer
iterations; each outer iteration consumes at least one character, so
`program.length` suffices.  After the scan a non-empty stack is the
unmatched-open-bracket error (lines 82-83). -/
def parseLoop : Nat → Nat → List (List CNode) → List CNode → List Char → Option ParseResult
  | _, _, stack, ctokens, [] =>
    match stack with
    | [] => some (.ok ctokens)
    | _ :: _ => some (.err .unmatchedOpen stack ctokens)
  | 0, _, _, _, _ :: _ => none
  | fuel + 1, pos, stack, ctokens, c :: rest =>
    match tokenOf c with
    | none => some (.err (.invalidChar pos) stack ctokens)
    | some token =>
      if token = Token.LoopStart then
        parseLoop fuel (pos + 1) ([] :: stack) ctokens rest
      else if token = Token.LoopEnd then
        match stack with
        | [] => some (.err (.unmatchedClose pos) [] ctokens)
        | loop :: stack2 =>
          match stack2 with
          | top :: stack3 =>
            parseLoop fuel (pos + 1) ((top ++ [CNode.loop loop]) :: stack3) ctokens rest
          | [] => parseLoop fuel (pos + 1) [] (ctokens ++ [CNode.loop loop]) rest
      else
        match foldRun token (incOf c) pos rest with
        | .error e => some (.err e stack ctokens)
        | .ok (count, pos2, rest2) =>
          match stack with
          | top :: stack2 =>
            parseLoop fuel (pos2 + 1) ((top ++ [CNode.op ⟨token, count⟩]) :: stack2) ctokens rest2
          | [] => parseLoop fuel (pos2 + 1) [] (ctokens ++ [CNode.op ⟨token, count⟩]) rest2

/-- `Interpreter.parse` run on a fresh interpreter: `stack` and `c_tokens`
start empty and `instr_ptr` starts at 0 (bf3.py lines 25-28). -/
def parse (program : List Char) : Option ParseResult :=
  parseLoop program.length 0 [] [] program

/-! ### Small-step equations for `execute`

One-step unfoldings used to drive symbolic executions without duplicating
the (possibly symbolic) machine state inside one huge reduction. -/

theorem execute_cons_op {ct : CountedToken} {s s2 : Interpreter}
    (f : Nat) (rest : List CNode) (h : execOp ct s = some s2) :
    execute (f + 1) (CNode.op ct :: rest) s = execute f rest s2 := by
  simp [execute, h]

theorem execute_loop_iter {body : List CNode} {s s2 : Interpreter} {v : Int}
    (f : Nat) (rest : List CNode)
    (hv : pyGet s.memory s.data_ptr = some v) (hne : ¬v = 0)
    (hb : execute f body s = some s2) :
    execute (f + 1) (CNode.loop body :: rest) s =
      execute f (CNode.loop body :: rest) s2 := by
  simp [execute, hv, hne, hb]

theorem execute_loop_exit {body : List CNode} {s : Interpreter}
    (f : Nat) (rest : List CNode)
    (hv : pyGet s.memory s.data_ptr = some 0) :
    execute (f + 1) (CNode.loop body :: rest) s = execute f rest s := by
  simp [execute, hv]

/-! ### The transfer-loop scenario -/

/-- The loop body compiled from `[<+>-]` in the scenario program. -/
def tbody : List CNode :=
  [CNode.op ⟨Token.IncrPtr, -1⟩, CNode.op ⟨Token.Incr, 1⟩,
    CNode.op ⟨Token.IncrPtr, 1⟩, CNode.op ⟨Token.Incr, -1⟩]

/-- The compiled form of `"++>+++[<+>-]"`. -/
def tprog : List CNode :=
  [CNode.op ⟨Token.Incr, 2⟩, CNode.op ⟨Token.IncrPtr, 1⟩,
    CNode.op ⟨Token.Incr, 3⟩, CNode.loop tbody]

/-- C1: executing the compiled form of `"++>+++[<+>-]"` with cell width 8
on an all-zero tape of any length `≥ 2` terminates with cell 0 = 5,
cell 1 = 0 and the pointer at index 1. -/
theorem transfer_loop_scenario (l : Nat) :
    parse ['+', '+', '>', '+', '+', '+', '[', '<', '+', '>', '-', ']'] =
      some (.ok tprog) ∧
    ∃ s2 : Interpreter,
      execute 16 tprog (initInterp 8 (l + 2) []) = some s2 ∧
      s2.memory.get? 0 = some 5 ∧ s2.memory.get? 1 = some 0 ∧
      s2.data_ptr = 1 := by
  refine ⟨rfl, ⟨1, 5 :: 0 :: List.replicate l 0, 8, [], []⟩, ?_, rfl, rfl, rfl⟩
  have e1 : execute 16 tprog (initInterp 8 (l + 2) []) =
      execute 15 [CNode.op ⟨Token.IncrPtr, 1⟩, CNode.op ⟨Token.Incr, 3⟩,
        CNode.loop tbody] ⟨0, 2 :: 0 :: List.replicate l 0, 8, [], []⟩ :=
    execute_cons_op 15 _ rfl
  have e2 : execute 15 [CNode.op ⟨Token.IncrPtr, 1⟩, CNode.op ⟨Token.Incr, 3⟩,
        CNode.loop tbody] ⟨0, 2 :: 0 :: List.replicate l 0, 8, [], []⟩ =
      execute 14 [CNode.op ⟨Token.Incr, 3⟩, CNode.loop tbody]
        ⟨1, 2 :: 0 :: List.replicate l 0, 8, [], []⟩ :=
    execute_cons_op 14 _ rfl
  have e3 : execute 14 [CNode.op ⟨Token.Incr, 3⟩, CNode.loop tbody]
        ⟨1, 2 :: 0 :: List.replicate l 0, 8, [], []⟩ =
      execute 13 [CNode.loop tbody]
        ⟨1, 2 :: 3 :: List.replicate l 0, 8, [], []⟩ :=
    execute_cons_op 13 _ rfl
  have e4 : execute 13 [CNode.loop tbody]
        ⟨1, 2 :: 3 :: List.replicate l 0, 8, [], []⟩ =
      execute 12 [CNode.loop tbody]
        ⟨1, 3 :: 2 :: List.replicate l 0, 8, [], []⟩ :=
    execute_loop_iter 12 _ rfl (by decide) rfl
  have e5 : execute 12 [CNode.loop tbody]
        ⟨1, 3 :: 2 :: List.replicate l 0, 8, [], []⟩ =
      execute 11 [CNode.loop tbody]
        ⟨1, 4 :: 1 :: List.replicate l 0, 8, [], []⟩ :=
    execute_loop_iter 11 _ rfl (by decide) rfl
  have e6 : execute 11 [CNode.loop tbody]
        ⟨1, 4 :: 1 :: List.replicate l 0, 8, [], []⟩ =
      execute 10 [CNode.loop tbody]
        ⟨1, 5 :: 0 :: List.replicate l 0, 8, [], []⟩ :=
    execute_loop_iter 10 _ rfl (by decide) rfl
  have e7 : execute 10 [CNode.loop tbody]
        ⟨1, 5 :: 0 :: List.replicate l 0, 8, [], []⟩ =
      execute 9 [] ⟨1, 5 :: 0 :: List.replicate l 0, 8, [], []⟩ :=
    execute_loop_exit 9 _ rfl
  rw [e1, e2, e3, e4, e5, e6, e7]
  rfl

/-! ### Behaviour of the fold loop -/

/-- If every remaining character has the token kind being folded, the fold
loop consumes all of them and accumulates the signed sum of their
increments. -/
theorem foldRun_all {t : Token} (l : List Char) (h : ∀ c ∈ l, tokenOf c = some t)
    (count : Int) (pos : Nat) :
    foldRun t count pos l = .ok (count + (l.map incOf).sum, pos + l.length, []) := by
  induction l generalizing count pos with
  | nil => simp [foldRun]
  | cons c rest ih =>
    have hc : tokenOf c = some t := h c (List.mem_cons_self c rest)
    have hr : ∀ x ∈ rest, tokenOf x = some t := fun x hx => h x (List.mem_cons_of_mem c hx)
    rw [foldRun, hc]
    simp only [if_pos rfl, ih hr]
    rw [List.map_cons, List.sum_cons, List.length_cons]
    simp only [if_true, Except.ok.injEq, Prod.mk.injEq]
    exact ⟨by ring, by omega, trivial⟩

/-- The fold loop stops, consuming nothing further, at the first character
of a different token kind. -/
theorem foldRun_stop {t u : Token} (pre : List Char)
    (h : ∀ c ∈ pre, tokenOf c = some t) (d : Char) (hd : tokenOf d = some u)
    (hu : ¬u = t) (tail : List Char) (count : Int) (pos : Nat) :
    foldRun t count pos (pre ++ d :: tail) =
      .ok (count + (pre.map incOf).sum, pos + pre.length, d :: tail) := by
  induction pre generalizing count pos with
  | nil => simp [foldRun, hd, hu]
  | cons c rest ih =>
    have hc : tokenOf c = some t := h c (List.mem_cons_self c rest)
    have hr : ∀ x ∈ rest, tokenOf x = some t := fun x hx => h x (List.mem_cons_of_mem c hx)
    rw [List.cons_append, foldRun, hc]
    simp only [if_pos rfl, ih hr]
    rw [List.map_cons, List.sum_cons, List.length_cons]
    simp only [if_true, Except.ok.injEq, Prod.mk.injEq]
    exact ⟨by ring, by omega, trivial⟩

/-- C2: a non-empty bracket-free source made of movement (resp. arithmetic)
symbols of a single operation kind compiles to exactly one counted node
whose count is the signed sum of the per-character increments. -/
theorem fold_correctness (s : List Char) (t : Token) (hne : s ≠ [])
    (hk : ∀ c ∈ s, tokenOf c = some t)
    (ht : t = Token.IncrPtr ∨ t = Token.Incr) :
    parse s = some (.ok [CNode.op ⟨t, (s.map incOf).sum⟩]) := by
  match s, hne with
  | c :: rest, _ =>
    have hc : tokenOf c = some t := hk c (List.mem_cons_self c rest)
    have hr : ∀ x ∈ rest, tokenOf x = some t :=
      fun x hx => hk x (List.mem_cons_of_mem c hx)
    show parseLoop (c :: rest).length 0 [] [] (c :: rest) = _
    rw [List.length_cons, parseLoop, hc]
    rcases ht with rfl | rfl <;>
      simp [foldRun_all rest hr, parseLoop, List.sum_cons]

/-- Witness for C2 at `"+-+"`. -/
theorem fold_correctness_witness :
    parse ['+', '-', '+'] = some (.ok [CNode.op ⟨Token.Incr, 1⟩]) := by
  have h := fold_correctness ['+', '-', '+'] Token.Incr (by decide) (by decide)
    (Or.inr rfl)
  simpa [incOf] using h

/-- C7: bracket matching.  `"[]"`, `"[[]]"` and `"[][]"` compile to the
correctly nested / sibling loop nodes; `"]"` fails at the offending
position during the scan (the characters after it are never reached, as
the `"]+"` conjunct shows), while `"["` and `"[[]"` fail with the
unmatched-open-bracket error only after the whole scan. -/
theorem bracket_matching :
    parse ['[', ']'] = some (.ok [CNode.loop []]) ∧
    parse ['[', '[', ']', ']'] = some (.ok [CNode.loop [CNode.loop []]]) ∧
    parse ['[', ']', '[', ']'] = some (.ok [CNode.loop [], CNode.loop []]) ∧
    parse [']'] = some (.err (.unmatchedClose 0) [] []) ∧
    parse [']', '+'] = some (.err (.unmatchedClose 0) [] []) ∧
    parse ['['] = some (.err .unmatchedOpen [[]] []) ∧
    parse ['[', '[', ']'] = some (.err .unmatchedOpen [[CNode.loop []]] []) :=
  ⟨rfl, rfl, rfl, rfl, rfl, rfl, rfl⟩

/-- Counterexample to C8: parsing `"+]"` raises the unmatched-close-bracket
error, yet the interpreter object's `c_tokens` field still holds the
partially compiled node `(Incr, 1)` built before the error — the partial
sequence is retained and accessible, contradicting the claim. -/
theorem partial_program_retained :
    parse ['+', ']'] =
      some (.err (.unmatchedClose 1) [] [CNode.op ⟨Token.Incr, 1⟩]) ∧
    [CNode.op ⟨Token.Incr, 1⟩] ≠ ([] : List CNode) :=
  ⟨rfl, by simp⟩

/-- C8 as amended: on a syntax error no compiled program is returned, but
the interpreter retains the top-level nodes compiled before the error;
for the family `"+"*n ++ "]"` (n ≥ 1) the retained `c_tokens` is exactly
the folded node `(Incr, n)`. -/
theorem partial_program_retained_general (n : Nat) (hn : 1 ≤ n) :
    parse (List.replicate n '+' ++ [']']) =
      some (.err (.unmatchedClose n) [] [CNode.op ⟨Token.Incr, (n : Int)⟩]) := by
  match n, hn with
  | m + 1, _ =>
    have hr : ∀ x ∈ List.replicate m '+', tokenOf x = some Token.Incr := by
      intro x hx
      rw [List.eq_of_mem_replicate hx]
      rfl
    have hfold := foldRun_stop (t := Token.Incr) (u := Token.LoopEnd)
      (List.replicate m '+') hr ']' rfl (by decide) [] (incOf '+') 0
    have hsum : incOf '+' + (List.map incOf (List.replicate m '+')).sum
        = ((m + 1 : Nat) : Int) := by
      rw [List.map_replicate, show incOf '+' = 1 from rfl, List.sum_replicate,
        nsmul_eq_mul, mul_one]
      push_cast
      ring
    have hpos : 0 + (List.replicate m '+').length = m := by simp
    rw [hsum, hpos] at hfold
    show parseLoop (List.replicate (m + 1) '+' ++ [']']).length 0 [] []
      (List.replicate (m + 1) '+' ++ [']']) = _
    have hlen : (List.replicate (m + 1) '+' ++ [']']).length = (m + 1) + 1 := by
      simp
    rw [hlen,
      show List.replicate (m + 1) '+' ++ [']'] = '+' :: (List.replicate m '+' ++ [']'])
        from by rw [List.replicate_succ, List.cons_append],
      parseLoop, show tokenOf '+' = some Token.Incr from rfl]
    simp only [show (Token.Incr = Token.LoopStart) = False by simp,
      show (Token.Incr = Token.LoopEnd) = False by simp, if_false, hfold,
      List.nil_append]
    rw [parseLoop, show tokenOf ']' = some Token.LoopEnd from rfl]
    simp only [show (Token.LoopEnd = Token.LoopStart) = False by simp, if_false,
      if_pos rfl]
    rw [if_pos trivial]

/-! ### Indexing and range lemmas -/

/-- Writing succeeds at any index that reads successfully, and stores at
the normalised index. -/
theorem pySet_of_pyGet {mem : List Int} {i v : Int}
    (h : pyGet mem i = some v) (w : Int) :
    pySet mem i w = some (mem.set (pyIdx mem.length i) w) := by
  by_cases hC : i < 0 ∧ (mem.length : Int) + i < 0
  · rw [pyGet, if_pos hC] at h
    exact absurd h (by simp)
  · rw [pyGet, if_neg hC] at h
    rw [pySet, if_neg hC, h]

theorem max_int_pos (W : Nat) : 0 < max_int W := by
  rw [max_int, Nat.shiftLeft_eq]
  positivity

theorem max_int_eq {W : Nat} (h : 1 ≤ W) : max_int W = 2 ^ W := by
  rw [max_int, Nat.shiftLeft_eq]
  have h1 : W - 1 + 1 = W := by omega
  calc 2 * 2 ^ (W - 1) = 2 ^ (W - 1 + 1) := by rw [pow_succ]; ring
    _ = 2 ^ W := by rw [h1]

/-! ### Tape growth (C3) -/

/-- Counterexample to C3: on a tape of length 2 a MovePointer of +3 lands
the pointer at index 3 ≥ 2, yet the tape does not grow at all (growth
fires only on exact equality with the length), so the new length is not
`target + 1 = 4` or more. -/
theorem growth_threshold_cex :
    (incr_ptr 3 ⟨0, [0, 0], 8, [], []⟩).data_ptr = 3 ∧
    (incr_ptr 3 ⟨0, [0, 0], 8, [], []⟩).memory = [0, 0] ∧
    ¬(3 + 1 ≤ (incr_ptr 3 ⟨0, [0, 0], 8, [], []⟩).memory.length) := by
  refine ⟨rfl, rfl, by decide⟩

/-- C3 as amended: the tape grows only when the move lands the pointer
exactly on index `L = len(memory)`; then `L / 2` zero cells are appended
(new length `L + L / 2`, which is `≥ L + 1` exactly when `L ≥ 2`) and no
existing cell changes.  A move landing anywhere else, in particular
strictly beyond the end, leaves the tape unchanged. -/
theorem tape_growth_amended :
    (∀ (s : Interpreter) (c : Int), s.data_ptr + c = (s.memory.length : Int) →
      (incr_ptr c s).memory = s.memory ++ List.replicate (s.memory.length / 2) 0 ∧
      (incr_ptr c s).memory.length = s.memory.length + s.memory.length / 2 ∧
      (∀ i, i < s.memory.length → (incr_ptr c s).memory.get? i = s.memory.get? i) ∧
      (2 ≤ s.memory.length → s.memory.length + 1 ≤ (incr_ptr c s).memory.length)) ∧
    (∀ (s : Interpreter) (c : Int), s.data_ptr + c ≠ (s.memory.length : Int) →
      (incr_ptr c s).memory = s.memory) := by
  constructor
  · intro s c h
    have hmem : (incr_ptr c s).memory
        = s.memory ++ List.replicate (s.memory.length / 2) 0 := by
      simp [incr_ptr, h]
    refine ⟨hmem, ?_, ?_, ?_⟩
    · rw [hmem]
      simp
    · intro i hi
      rw [hmem, List.get?_append hi]
    · intro h2
      rw [hmem]
      simp only [List.length_append, List.length_replicate]
      omega
  · intro s c h
    simp [incr_ptr, h]

/-- Witness for the amended C3 at tape `[0,0]`, move `+2`. -/
theorem tape_growth_amended_witness :
    (incr_ptr 2 ⟨0, [0, 0], 8, [], []⟩).memory = [0, 0] ++ List.replicate 1 0 := by
  have h := tape_growth_amended.1 ⟨0, [0, 0], 8, [], []⟩ 2 (by decide)
  simpa using h.1

/-! ### Cell range invariant (C5) -/

/-- Every cell of the tape lies in `[0, 2 ^ cell_size)` (stated through
`max_int`, which equals `2 ^ cell_size` for the configured widths). -/
def memInRange (s : Interpreter) : Prop :=
  ∀ v ∈ s.memory, 0 ≤ v ∧ v < (max_int s.cell_size : Int)

instance (s : Interpreter) : Decidable (memInRange s) :=
  inferInstanceAs (Decidable (∀ v ∈ s.memory, 0 ≤ v ∧ v < (max_int s.cell_size : Int)))

/-- Counterexample to C5: with cell width 4 an Input operation stores the
raw character code (here `ord 'A' = 65`) without reducing it modulo
`2 ^ 4 = 16`, so the executed program leaves a cell outside `[0, 2^W)`. -/
theorem cell_range_cex :
    execute 1 [CNode.op ⟨Token.StdIn, 1⟩] (initInterp 4 1 ['A']) =
      some ⟨0, [65], 4, [], []⟩ ∧
    ¬memInRange ⟨0, [65], 4, [], []⟩ := by
  refine ⟨rfl, by decide⟩

/-- C5 as amended: cells start at zero, growth appends zeros, and
MovePointer, ModifyCell and Output all preserve the range `[0, 2^W)`;
Input is the exception (see the counterexample), storing the unreduced
code point. -/
theorem cell_range_amended :
    (∀ (W L : Nat) (inp : List Char), memInRange (initInterp W L inp)) ∧
    (∀ (s : Interpreter) (c : Int), memInRange s → memInRange (incr_ptr c s)) ∧
    (∀ (s s2 : Interpreter) (c : Int), memInRange s → incr c s = some s2 →
      memInRange s2) ∧
    (∀ (s s2 : Interpreter) (c : Int), memInRange s → stdout c s = some s2 →
      memInRange s2) := by
  have hzero : ∀ (W : Nat), (0 : Int) ≤ 0 ∧ (0 : Int) < (max_int W : Int) := by
    intro W
    exact ⟨le_refl 0, by exact_mod_cast max_int_pos W⟩
  refine ⟨?_, ?_, ?_, ?_⟩
  · intro W L inp v hv
    rw [List.eq_of_mem_replicate hv]
    exact hzero W
  · intro s c hm v hv
    by_cases hc : s.data_ptr + c = (s.memory.length : Int)
    · simp only [incr_ptr, if_pos hc] at hv ⊢
      rcases List.mem_append.mp hv with h1 | h1
      · exact hm v h1
      · rw [List.eq_of_mem_replicate h1]
        exact hzero s.cell_size
    · simp only [incr_ptr, if_neg hc] at hv ⊢
      exact hm v hv
  · intro s s2 c hm h
    unfold incr at h
    cases hg : pyGet s.memory s.data_ptr with
    | none =>
      rw [hg] at h
      cases h
    | some v0 =>
      simp only [hg, pySet_of_pyGet hg, Option.some.injEq] at h
      subst h
      intro v hv
      rcases List.mem_or_eq_of_mem_set hv with h1 | h1
      · exact hm v h1
      · subst h1
        have hpos : (0 : Int) < (max_int s.cell_size : Int) := by
          exact_mod_cast max_int_pos s.cell_size
        exact ⟨Int.emod_nonneg _ (ne_of_gt hpos), Int.emod_lt_of_pos _ hpos⟩
  · intro s s2 c hm h
    unfold stdout at h
    cases hg : pyGet s.memory s.data_ptr with
    | none =>
      rw [hg] at h
      cases h
    | some v0 =>
      simp only [hg] at h
      by_cases hcond : 1 ≤ c ∧ (v0 < 0 ∨ 1114112 ≤ v0)
      · rw [if_pos hcond] at h
        cases h
      · rw [if_neg hcond] at h
        simp only [Option.some.injEq] at h
        subst h
        exact hm

/-- Witness for the amended C5: ModifyCell by +5 on the in-range state
`[3]` yields the in-range state `[8]`. -/
theorem cell_range_amended_witness : memInRange ⟨0, [8], 8, [], []⟩ := by
  exact cell_range_amended.2.2.1 ⟨0, [3], 8, [], []⟩ ⟨0, [8], 8, [], []⟩ 5
    (by decide) rfl

/-! ### Wraparound cell arithmetic (C6) -/

/-- C6: a ModifyCell node sets the current cell to `(v + c) mod 2^W` with a
non-negative result (true modulo); for `W = 8`, 255 incremented once is 0
and 0 decremented once is 255. -/
theorem wraparound_modify :
    (∀ (s : Interpreter) (c v : Int), 1 ≤ s.cell_size →
      pyGet s.memory s.data_ptr = some v →
      incr c s = some { s with memory := s.memory.set (pyIdx s.memory.length s.data_ptr) ((v + c) % (2 : Int) ^ s.cell_size) } ∧
      0 ≤ (v + c) % (2 : Int) ^ s.cell_size ∧
      (v + c) % (2 : Int) ^ s.cell_size < (2 : Int) ^ s.cell_size) ∧
    incr 1 ⟨0, [255], 8, [], []⟩ = some ⟨0, [0], 8, [], []⟩ ∧
    incr (-1) ⟨0, [0], 8, [], []⟩ = some ⟨0, [255], 8, [], []⟩ := by
  refine ⟨?_, rfl, rfl⟩
  intro s c v hW hg
  have hM : (max_int s.cell_size : Int) = (2 : Int) ^ s.cell_size := by
    rw [max_int_eq hW]
    push_cast
    ring
  have hpos : (0 : Int) < (2 : Int) ^ s.cell_size := by positivity
  refine ⟨?_, Int.emod_nonneg _ (ne_of_gt hpos), Int.emod_lt_of_pos _ hpos⟩
  unfold incr
  simp only [hg, pySet_of_pyGet hg, hM]

/-- Witness for C6: ModifyCell +5 on cell value 10 at width 8. -/
theorem wraparound_modify_witness :
    incr 5 ⟨0, [10], 8, [], []⟩ = some ⟨0, [15], 8, [], []⟩ := by
  have h := wraparound_modify.1 ⟨0, [10], 8, [], []⟩ 5 10 (by decide) rfl
  rw [h.1]
  rfl

/-! ### Frame conditions (C9) -/

/-- C9: only MovePointer changes the pointer — ModifyCell, Output and Input
leave `data_ptr` untouched, a loop's zero-test leaves the whole state
untouched, and MovePointer only ever appends zero cells to the tape,
never changing an existing cell. -/
theorem pointer_frame :
    (∀ (s s2 : Interpreter) (c : Int), incr c s = some s2 →
      s2.data_ptr = s.data_ptr) ∧
    (∀ (s s2 : Interpreter) (c : Int), stdout c s = some s2 →
      s2.data_ptr = s.data_ptr) ∧
    (∀ (s s2 : Interpreter) (c : Int), stdin c s = some s2 →
      s2.data_ptr = s.data_ptr) ∧
    (∀ (s : Interpreter) (f : Nat) (body rest : List CNode),
      pyGet s.memory s.data_ptr = some 0 →
      execute (f + 1) (CNode.loop body :: rest) s = execute f rest s) ∧
    (∀ (s : Interpreter) (c : Int),
      (incr_ptr c s).data_ptr = s.data_ptr + c ∧
      ∃ k, (incr_ptr c s).memory = s.memory ++ List.replicate k 0) ∧
    (∀ (s : Interpreter) (c : Int) (i : Nat), i < s.memory.length →
      (incr_ptr c s).memory.get? i = s.memory.get? i) := by
  refine ⟨?_, ?_, ?_, ?_, ?_, ?_⟩
  · intro s s2 c h
    unfold incr at h
    cases hg : pyGet s.memory s.data_ptr with
    | none =>
      rw [hg] at h
      cases h
    | some v =>
      simp only [hg, pySet_of_pyGet hg, Option.some.injEq] at h
      subst h
      rfl
  · intro s s2 c h
    unfold stdout at h
    cases hg : pyGet s.memory s.data_ptr with
    | none =>
      rw [hg] at h
      cases h
    | some v =>
      simp only [hg] at h
      by_cases hcond : 1 ≤ c ∧ (v < 0 ∨ 1114112 ≤ v)
      · rw [if_pos hcond] at h
        cases h
      · rw [if_neg hcond] at h
        simp only [Option.some.injEq] at h
        subst h
        rfl
  · intro s s2 c h
    unfold stdin at h
    cases ht : s.input.take c.toNat with
    | nil =>
      rw [ht] at h
      cases h
    | cons a tl =>
      cases tl with
      | nil =>
        simp only [ht] at h
        cases hs : pySet s.memory s.data_ptr (a.toNat : Int) with
        | none =>
          rw [hs] at h
          cases h
        | some m =>
          simp only [hs, Option.some.injEq] at h
          subst h
          rfl
      | cons b tl2 =>
        rw [ht] at h
        cases h
  · intro s f body rest hv
    simp [execute, hv]
  · intro s c
    by_cases hc : s.data_ptr + c = (s.memory.length : Int)
    · refine ⟨by simp [incr_ptr, hc], s.memory.length / 2, by simp [incr_ptr, hc]⟩
    · refine ⟨by simp [incr_ptr, hc], 0, by simp [incr_ptr, hc]⟩
  · intro s c i hi
    by_cases hc : s.data_ptr + c = (s.memory.length : Int)
    · simp only [incr_ptr, if_pos hc]
      exact List.get?_append hi
    · simp only [incr_ptr, if_neg hc]

/-- Witness for C9: ModifyCell +1 on `[5]` leaves the pointer where it was. -/
theorem pointer_frame_witness :
    (⟨0, [6], 8, [], []⟩ : Interpreter).data_ptr =
      (⟨0, [5], 8, [], []⟩ : Interpreter).data_ptr := by
  exact pointer_frame.1 ⟨0, [5], 8, [], []⟩ ⟨0, [6], 8, [], []⟩ 1 rfl

/-! ### Negative pointers (C10) -/

/-- C10: a MovePointer landing at a negative index `p` with
`-L ≤ p ≤ -1` raises no error and never grows the tape, and every later
access through the pointer reads or writes the cell at index `L + p`
(Python's negative indexing wraps to the tail of the list). -/
theorem negative_pointer_wraps (s : Interpreter)
    (hL : -(s.memory.length : Int) ≤ s.data_ptr) (hneg : s.data_ptr < 0) :
    (∀ (s0 : Interpreter) (c : Int), s0.data_ptr + c < 0 →
      incr_ptr c s0 = { s0 with data_ptr := s0.data_ptr + c }) ∧
    pyGet s.memory s.data_ptr =
      s.memory.get? ((s.memory.length : Int) + s.data_ptr).toNat ∧
    (∃ v, pyGet s.memory s.data_ptr = some v) ∧
    (∀ w, pySet s.memory s.data_ptr w =
      some (s.memory.set ((s.memory.length : Int) + s.data_ptr).toNat w)) := by
  have hC : ¬(s.data_ptr < 0 ∧ (s.memory.length : Int) + s.data_ptr < 0) := by
    omega
  have hidx : ((s.memory.length : Int) + s.data_ptr).toNat < s.memory.length := by
    omega
  have hgetEq : pyGet s.memory s.data_ptr =
      s.memory.get? ((s.memory.length : Int) + s.data_ptr).toNat := by
    simp only [pyGet, pyIdx, if_neg hC, if_pos hneg]
  refine ⟨?_, hgetEq, ?_, ?_⟩
  · intro s0 c h
    have hne : ¬(s0.data_ptr + c = (s0.memory.length : Int)) := by
      intro hEq
      omega
    simp [incr_ptr, hne]
  · refine ⟨s.memory.get ⟨_, hidx⟩, ?_⟩
    rw [hgetEq]
    exact List.get?_eq_get hidx
  · intro w
    have hget2 : s.memory.get? ((s.memory.length : Int) + s.data_ptr).toNat =
        some (s.memory.get ⟨_, hidx⟩) := List.get?_eq_get hidx
    simp only [pySet, if_neg hC, pyIdx, if_pos hneg, hget2]

/-- Witness for C10: pointer −1 on the 2-cell tape `[7, 9]` reads index 1. -/
theorem negative_pointer_wraps_witness :
    pyGet [7, 9] (-1) = List.get? [7, 9] 1 := by
  have h := negative_pointer_wraps ⟨-1, [7, 9], 8, [], []⟩ (by decide) (by decide)
  have h2 := h.2.1
  norm_num at h2
  exact h2

/-! ### The Input fold bug (C4) -/

/-- C4 names a real behaviour the code does not have: an Input node with
count 2 and two characters available executes
`ord(sys.stdin.read(2))`, and `ord` on the 2-character string raises
`TypeError` — the run aborts instead of storing the last character's code.
With count 1 the same state reads one character and stores its code. -/
theorem input_fold_bug :
    execute 1 [CNode.op ⟨Token.StdIn, 2⟩] ⟨0, [0], 8, ['a', 'b'], []⟩ = none ∧
    execute 1 [CNode.op ⟨Token.StdIn, 1⟩] ⟨0, [0], 8, ['a', 'b'], []⟩ =
      some ⟨0, [97], 8, ['b'], []⟩ :=
  ⟨rfl, rfl⟩

/-- Witness for C1 at the minimal tape length 2. -/
theorem transfer_loop_scenario_witness :
    parse ['+', '+', '>', '+', '+', '+', '[', '<', '+', '>', '-', ']'] =
      some (.ok tprog) :=
  (transfer_loop_scenario 0).1

/-- Witness for the amended C8 at `n = 2`. -/
theorem partial_program_retained_general_witness :
    parse (List.replicate 2 '+' ++ [']']) =
      some (.err (.unmatchedClose 2) [] [CNode.op ⟨Token.Incr, ((2 : Nat) : Int)⟩]) :=
  partial_program_retained_general 2 (by decide)
